import Mathlib

/-!
Shallow embedding of the core of `terminal_wrapped`
(`src/terminal_wrapped/main.py`): the zsh-history parser, the alias-file
parser, the complexity scorer and the aggregation functions, together with
proofs of the behavioural properties claimed for them.

Python strings are modelled as Lean `String` / `List Char`; Python
exceptions raised by the modelled fragments are made explicit with
`Except String`; Python `dict` / `collections.Counter` values are modelled
as association lists whose key order is the dict insertion order
(first-seen order of the keys).
-/

namespace TerminalWrapped

open scoped List

/-- Whitespace strip from both ends of a character list.  Models Python
`str.strip()` (restricted to the ASCII whitespace recognised by
`Char.isWhitespace`). -/
def stripWsList (l : List Char) : List Char :=
  ((l.dropWhile Char.isWhitespace).reverse.dropWhile Char.isWhitespace).reverse

/-- Strip every leading and every trailing character that belongs to `cs`,
from both ends.  Models Python `str.strip(chars)`, which removes *all*
leading/trailing characters contained in the set `chars`, not just one
layer. -/
def stripCharsList (cs : List Char) (l : List Char) : List Char :=
  ((l.dropWhile (fun c => cs.contains c)).reverse.dropWhile
    (fun c => cs.contains c)).reverse

/-- Accumulator-based worker for `pySplitWs`; `cur` holds the (reversed)
word currently being read. -/
def pySplitWsGo (cur : List Char) : List Char → List (List Char)
  | [] => if cur.isEmpty then [] else [cur.reverse]
  | c :: cs =>
    if c.isWhitespace then
      if cur.isEmpty then pySplitWsGo [] cs else cur.reverse :: pySplitWsGo [] cs
    else
      pySplitWsGo (c :: cur) cs

/-- Models Python `str.split()` with no separator: split on runs of
whitespace, dropping empty fragments. -/
def pySplitWs (l : List Char) : List (List Char) :=
  pySplitWsGo [] l

/-- Split a character list at the first occurrence of `sep`; `none` when
`sep` does not occur.  Models Python `s.split(sep, 1)` together with the
`len(parts) == 2` / `parts[1]` access (which fails exactly when `sep` is
absent). -/
def splitFirst (sep : Char) (l : List Char) : Option (List Char × List Char) :=
  if l.contains sep then
    some (l.takeWhile (fun c => c != sep), (l.dropWhile (fun c => c != sep)).drop 1)
  else
    none

/-- Numeric value of a nonempty all-digit character list, `none` otherwise. -/
def digitsVal (l : List Char) : Option Nat :=
  if l ≠ [] ∧ l.all Char.isDigit then
    some (l.foldl (fun a c => a * 10 + (c.toNat - 48)) 0)
  else
    none

/-- Models Python `int(s)` on decimal strings: surrounding whitespace is
tolerated, an optional single leading sign, then ASCII digits.  (Underscore
digit grouping and non-ASCII digits accepted by CPython are outside the
inputs this program meets and are not modelled.) -/
def pyParseInt (s : String) : Option Int :=
  match stripWsList s.toList with
  | '-' :: ds => (digitsVal ds).map (fun n => -(n : Int))
  | '+' :: ds => (digitsVal ds).map (fun n => (n : Int))
  | ds => (digitsVal ds).map (fun n => (n : Int))

/-- Worker for `removeSub`: `skip` counts characters still to be consumed
from a previously matched occurrence of the pattern. -/
def removeSubGo (pat : List Char) : List Char → Nat → List Char
  | [], _ => []
  | _ :: cs, skip + 1 => removeSubGo pat cs skip
  | c :: cs, 0 =>
    if pat.isPrefixOf (c :: cs) then removeSubGo pat cs (pat.length - 1)
    else c :: removeSubGo pat cs 0

/-- Delete every (left-to-right, non-overlapping) occurrence of the
nonempty pattern `pat`.  Models Python `s.replace(pat, "")`, which replaces
*all* occurrences of the substring. -/
def removeSub (pat : List Char) (l : List Char) : List Char :=
  removeSubGo pat l 0

/-- Replace the first occurrence of `pat` by `repl`.  Models Python
`s.replace(pat, repl, 1)`. -/
def replaceFirst (pat repl : List Char) : List Char → List Char
  | [] => []
  | c :: cs =>
    if pat.isPrefixOf (c :: cs) then repl ++ (c :: cs).drop pat.length
    else c :: replaceFirst pat repl cs

/-- Models Python `max(xs)` over naturals: raises `ValueError` on an empty
sequence. -/
def pyMaxE (l : List Nat) : Except String Nat :=
  match l with
  | [] => Except.error "ValueError: max() arg is an empty sequence"
  | a :: t => Except.ok (t.foldl Nat.max a)

/-- A parsed `datetime.fromtimestamp` value: the epoch second it was built
from and its local-time hour field. -/
structure Datetime where
  epoch : Int
  hour : Nat
deriving Repr, DecidableEq

/-- The local-time second of `0001-01-01T00:00:00`, the smallest instant
`datetime` supports: 719162 days before the epoch. -/
def minTsLocal : Int := -62135596800

/-- The local-time second of `9999-12-31T23:59:59`, the largest whole
second `datetime` supports. -/
def maxTsLocal : Int := 253402300799

/-- Models `datetime.fromtimestamp(epoch)`: the local-time hour is computed
with a fixed UTC offset of `tzOffset` seconds (daylight-saving shifts are
not modelled); the epoch second is retained.  `fromtimestamp` raises
`ValueError` when the local datetime falls outside years 1–9999, which is
modelled as `none` (in `parse_zsh_history` that exception is caught and the
line skipped).  The platform-dependent `OverflowError` beyond the C
`time_t` limits (around `2^63` seconds, which no history file reaches, and
which the parser's handler would *not* catch) is not modelled. -/
def pyFromTimestamp (tzOffset : Int) (epoch : Int) : Option Datetime :=
  if minTsLocal ≤ epoch + tzOffset ∧ epoch + tzOffset ≤ maxTsLocal then
    some ⟨epoch, (((epoch + tzOffset) % 86400) / 3600).toNat⟩
  else
    none

/-- The distinct elements of `l`, each kept at its *first* occurrence, in
order of first occurrence.  (`List.dedup` keeps last occurrences, so the
list is deduplicated reversed.)  This is the key order of a Python dict /
`Counter` filled by iterating over `l`. -/
def firstSeen {α : Type} [DecidableEq α] (l : List α) : List α :=
  (l.reverse.dedup).reverse

/-- Models the item list of `collections.Counter(l)` (equally: of a
`defaultdict(int)` incremented once per element of `l`): one `(key, count)`
pair per distinct element, keys in first-seen order, counts the total
multiplicities in `l`. -/
def counterItems {α : Type} [DecidableEq α] (l : List α) : List (α × Nat) :=
  (firstSeen l).map (fun k => (k, l.count k))

/-- Total of the counts of a `(key, count)` table. -/
def sumCounts {α : Type} (l : List (α × Nat)) : Nat :=
  (l.map Prod.snd).sum

/-- Increment the count of `k` in an association table, appending a fresh
`(k, 1)` entry when `k` is absent.  Models `d[k] += 1` on a
`defaultdict(int)`. -/
def counterBump {α : Type} [DecidableEq α] (m : List (α × Nat)) (k : α) :
    List (α × Nat) :=
  if (m.map Prod.fst).contains k then
    m.map (fun p => if p.1 = k then (p.1, p.2 + 1) else p)
  else
    m ++ [(k, 1)]

/-- Insert `x` into a list sorted descending by the key `k`, after every
element of key ≥ `k x` (so that a left-to-right fold is a *stable* sort). -/
def insertDesc {α : Type} (k : α → Nat) (x : α) : List α → List α
  | [] => [x]
  | y :: ys => if k x ≤ k y then y :: insertDesc k x ys else x :: y :: ys

/-- Stable sort, descending by the key `k`.  Models Python
`sorted(l, key=k, reverse=True)` (and `heapq.nlargest` / the sort inside
`Counter.most_common`), which are stable: elements of equal key keep their
input order. -/
def pySortDesc {α : Type} (k : α → Nat) (l : List α) : List α :=
  l.foldl (fun acc x => insertDesc k x acc) []

/-- Insert `x` into a list sorted ascending by the key `k`. -/
def insertAsc {α : Type} (k : α → Nat) (x : α) : List α → List α
  | [] => [x]
  | y :: ys => if k y ≤ k x then y :: insertAsc k x ys else x :: y :: ys

/-- Sort ascending by the key `k`.  Models Python `sorted(l)`. -/
def pySortAsc {α : Type} (k : α → Nat) (l : List α) : List α :=
  l.foldl (fun acc x => insertAsc k x acc) []

/-! ## The embedded program -/

/-- Parse one line of the zsh history file, as the loop body of
`parse_zsh_history` (main.py lines 52-60) does: lines starting `": "` have
`line.split(":")[1].strip()` read as the integer timestamp and
`line.split(";", 1)[1].strip()` taken as the command; an absent `";"`
(`IndexError`) or a non-integer timestamp field (`ValueError`) makes the
line contribute nothing, as does an out-of-range epoch (`ValueError` from
`datetime.fromtimestamp`, caught by the same handler).  Since the line
starts with `":"`, `line.split(":")[1]` is the text between the first and
second colon, i.e. `(l.drop 1).takeWhile (· != ':')`. -/
def parse_history_line (tzOffset : Int) (line : String) :
    Option (String × Datetime) :=
  let l := line.toList
  if (": ".toList).isPrefixOf l then
    let tsField := (l.drop 1).takeWhile (fun c => c != ':')
    match splitFirst ';' l with
    | none => none
    | some (_, rest) =>
      match pyParseInt (String.mk (stripWsList tsField)) with
      | none => none
      | some n =>
        match pyFromTimestamp tzOffset n with
        | none => none
        | some d => some (String.mk (stripWsList rest), d)
  else none

/-- Embeds `parse_zsh_history` (main.py lines 48-61): fold
`parse_history_line` over the file's lines, keeping the successes in file
order. -/
def parse_zsh_history (tzOffset : Int) (lines : List String) :
    List (String × Datetime) :=
  lines.filterMap (parse_history_line tzOffset)

/-- The scoring character set of `calculate_command_complexity`
(main.py line 75): the Python set literal `"|&;()<>[]{}$\\'\"` + backtick +
`!#*?"`.  Spelled with explicit code points for the brace, backslash,
quote and backtick characters. -/
def specialScoreSet : List Char :=
  ['|', '&', ';', '(', ')', '<', '>', '[', ']',
   Char.ofNat 123, Char.ofNat 125, '$', Char.ofNat 92,
   Char.ofNat 39, Char.ofNat 34, Char.ofNat 96, '!', '#', '*', '?']

/-- Embeds `calculate_command_complexity` (main.py lines 73-76):
`sum(1 for char in command if char in special_chars)`. -/
def calculate_command_complexity (command : String) : Nat :=
  command.toList.countP (fun ch => specialScoreSet.contains ch)

/-- Embeds `get_special_chars` (main.py lines 64-70):
`"".join(sorted(set(c for c in command if not c.isalnum() and not c.isspace())))`. -/
def get_special_chars (command : String) : String :=
  String.mk (pySortAsc Char.toNat
    ((command.toList.filter (fun ch => !ch.isAlphanum && !ch.isWhitespace)).dedup))

/-- The base command of `get_top_commands` (main.py line 85):
`cmd.split()[0] if cmd.split() else ""`. -/
def baseCmd (cmd : String) : String :=
  match pySplitWs cmd.toList with
  | [] => ""
  | t :: _ => String.mk t

/-- Embeds `get_top_commands` (main.py lines 79-87):
`Counter(base_commands).most_common(n)`, i.e. the first `n` items of the
stable descending-by-count sort of the counter table. -/
def get_top_commands (commands : List (String × Datetime)) (n : Nat) :
    List (String × Nat) :=
  (pySortDesc Prod.snd (counterItems (commands.map (fun e => baseCmd e.1)))).take n

/-- Embeds `get_top_full_commands` (main.py lines 90-94):
`Counter(cmd for cmd, _ in commands).most_common(n)`. -/
def get_top_full_commands (commands : List (String × Datetime)) (n : Nat) :
    List (String × Nat) :=
  (pySortDesc Prod.snd (counterItems (commands.map Prod.fst))).take n

/-- The per-entry `(cmd, complexity, special_chars)` triples built by
`get_most_complex_commands` (main.py lines 101-105). -/
def commandInfo (commands : List (String × Datetime)) :
    List (String × Nat × String) :=
  commands.map (fun e =>
    (e.1, calculate_command_complexity e.1, get_special_chars e.1))

/-- Embeds `get_most_complex_commands` (main.py lines 97-106):
`sorted(command_info, key=lambda x: x[1], reverse=True)[:n]` with Python's
stable sort. -/
def get_most_complex_commands (commands : List (String × Datetime)) (n : Nat) :
    List (String × Nat × String) :=
  (pySortDesc (fun t => t.2.1) (commandInfo commands)).take n

/-- Embeds `get_hourly_distribution` (main.py lines 109-114): a
`defaultdict(int)` incremented at `timestamp.hour` per entry, returned as
`dict(sorted(hour_counts.items()))` — the occurring hours only, in
ascending hour order. -/
def get_hourly_distribution (commands : List (String × Datetime)) :
    List (Nat × Nat) :=
  pySortAsc Prod.fst (counterItems (commands.map (fun e => e.2.hour)))

/-- The character list of the token `alias`. -/
def aliasPat : List Char := "alias".toList

/-- The single-quote and double-quote characters, as stripped by
`.strip("'\"")` in `parse_aliases`. -/
def quoteChars : List Char := [Char.ofNat 39, Char.ofNat 34]

/-- A one-character string holding a single quote (code point 39). -/
def sq : String := String.mk [Char.ofNat 39]

/-- Embeds the loop body of `parse_aliases` (main.py lines 122-128): a
stripped line starting with `alias` is split on the first `=`;
the name is `parts[0].replace("alias", "").strip()` (note: `replace`
deletes *every* occurrence of the substring `alias`), the value is
`parts[1].strip().strip("'\"")` (note: `strip` removes *all* leading and
trailing quote characters).  Lines without `=`, or not starting with
`alias`, contribute nothing. -/
def parse_alias_line (line : String) : Option (String × String) :=
  let t := stripWsList line.toList
  if aliasPat.isPrefixOf t then
    match splitFirst '=' t with
    | some (p0, p1) =>
      some (String.mk (stripWsList (removeSub aliasPat p0)),
            String.mk (stripCharsList quoteChars (stripWsList p1)))
    | none => none
  else none

/-- Insert-or-overwrite on an association list with dict semantics: an
existing key keeps its position and gets the new value, a new key is
appended.  Models `aliases[alias] = command` on a Python dict. -/
def dictUpsert (m : List (String × String)) (k v : String) :
    List (String × String) :=
  if (m.map Prod.fst).contains k then
    m.map (fun p => if p.1 = k then (p.1, v) else p)
  else
    m ++ [(k, v)]

/-- Embeds `parse_aliases` (main.py lines 117-131) over the lines of the
config file (the missing-file case returns the empty map before this loop
runs). -/
def parse_aliases (lines : List String) : List (String × String) :=
  lines.foldl (fun m line =>
    match parse_alias_line line with
    | some (k, v) => dictUpsert m k v
    | none => m) []

/-- Modelled from the spec: variant of `parse_alias_line` following the
words of the specification instead of the code — the name strips only the
*leading* `alias` token, and the value strips exactly *one* layer of
enclosing quote characters (a leading one if present, a trailing one if
present).  Used to compare the specified with the implemented behaviour. -/
def dropOneLeadQuote (l : List Char) : List Char :=
  match l with
  | [] => []
  | c :: cs => if quoteChars.contains c then cs else c :: cs

/-- Modelled from the spec: strip one enclosing quote layer — one leading
quote character when present, one trailing quote character when present. -/
def stripOneQuoteLayer (l : List Char) : List Char :=
  (dropOneLeadQuote (dropOneLeadQuote l).reverse).reverse

/-- Modelled from the spec: the alias-line parse as §4.2 of the spec words
it (leading `alias` token stripped; one layer of enclosing quotes
stripped). -/
def parse_alias_line_perSpec (line : String) : Option (String × String) :=
  let t := stripWsList line.toList
  if aliasPat.isPrefixOf t then
    match splitFirst '=' t with
    | some (p0, p1) =>
      some (String.mk (stripWsList (p0.drop aliasPat.length)),
            String.mk (stripOneQuoteLayer (stripWsList p1)))
    | none => none
  else none

/-- Modelled from the spec: variant of `parse_history_line` following the
words of the specification — the command text is *everything* after the
first `;`, unmodified (no whitespace strip).  Used to compare the
specified with the implemented behaviour. -/
def parse_history_line_perSpec (tzOffset : Int) (line : String) :
    Option (String × Datetime) :=
  let l := line.toList
  if (": ".toList).isPrefixOf l then
    let tsField := (l.drop 1).takeWhile (fun c => c != ':')
    match splitFirst ';' l with
    | none => none
    | some (_, rest) =>
      match pyParseInt (String.mk (stripWsList tsField)) with
      | none => none
      | some n =>
        match pyFromTimestamp tzOffset n with
        | none => none
        | some d => some (String.mk rest, d)
  else none

/-- Worker of `analyze_alias_usage`.  The unguarded `cmd.split()[0]`
(main.py line 140) raises `IndexError` on a command with no
whitespace-delimited token; this is made explicit in `Except`. -/
def analyze_alias_usage_go (aliases : List (String × String)) :
    List (String × Datetime) → List (String × Nat) →
    Except String (List (String × Nat))
  | [], usage => Except.ok usage
  | e :: rest, usage =>
    match pySplitWs e.1.toList with
    | [] => Except.error "IndexError: list index out of range"
    | t :: _ =>
      let base := String.mk t
      analyze_alias_usage_go aliases rest
        (if (aliases.map Prod.fst).contains base then counterBump usage base
         else usage)

/-- Embeds `analyze_alias_usage` (main.py lines 134-143): count, per alias
name, the entries whose first token is that alias. -/
def analyze_alias_usage (aliases : List (String × String))
    (commands : List (String × Datetime)) :
    Except String (List (String × Nat)) :=
  analyze_alias_usage_go aliases commands []

/-- Worker of `print_base_commands_counts`; the unguarded `cmd.split()[0]`
(main.py line 195) raises `IndexError` on a token-less command. -/
def print_base_commands_go (aliases : List (String × String)) :
    List (String × Datetime) → List (String × Nat) →
    Except String (List (String × Nat))
  | [], counts => Except.ok counts
  | e :: rest, counts =>
    match pySplitWs e.1.toList with
    | [] => Except.error "IndexError: list index out of range"
    | t :: _ =>
      let base := String.mk t
      print_base_commands_go aliases rest
        (if (aliases.map Prod.fst).contains base then counts
         else counterBump counts base)

/-- Embeds the counting loop of `print_base_commands` (main.py lines
193-197): count base commands whose first token is *not* an alias. -/
def print_base_commands_counts (aliases : List (String × String))
    (commands : List (String × Datetime)) :
    Except String (List (String × Nat)) :=
  print_base_commands_go aliases commands []

/-- Embeds `max_hour_count = max(hour_counts.values())` of
`print_time_analysis` (main.py lines 283-284). -/
def print_time_analysis_max (commands : List (String × Datetime)) :
    Except String Nat :=
  pyMaxE ((get_hourly_distribution commands).map Prod.snd)

/-- Worker of `print_full_commands_max`: the `command_counts` table of
`print_full_commands` (main.py lines 219-227), keyed by the
alias-expanded command. -/
def print_full_commands_go (aliases : List (String × String)) :
    List (String × Datetime) → List (String × Nat) →
    Except String (List (String × Nat))
  | [], counts => Except.ok counts
  | e :: rest, counts =>
    match pySplitWs e.1.toList with
    | [] => Except.error "IndexError: list index out of range"
    | t :: _ =>
      let base := String.mk t
      match aliases.lookup base with
      | some expansion =>
        print_full_commands_go aliases rest
          (counterBump counts
            (String.mk (replaceFirst base.toList expansion.toList e.1.toList)))
      | none => print_full_commands_go aliases rest (counterBump counts e.1)

/-- Embeds `print_full_commands` (main.py lines 214-232) down to
`max_full_count = max(count for _, count in full_commands)`: build the
expanded-command counts, sort them descending and truncate to ten, then
take `max` over the resulting counts — which raises on an empty table. -/
def print_full_commands_max (aliases : List (String × String))
    (commands : List (String × Datetime)) : Except String Nat := do
  let counts ← print_full_commands_go aliases commands []
  pyMaxE (((pySortDesc Prod.snd counts).take 10).map Prod.snd)

/-! ## Concrete inputs used by counterexamples and witnesses -/

/-- The `ValueError` message of Python `max` on an empty sequence. -/
def emptyMaxMsg : String := "ValueError: max() arg is an empty sequence"

/-- The `IndexError` message of Python `list[0]` on an empty list. -/
def indexErrMsg : String := "IndexError: list index out of range"

/-- A fixed timestamp for entries whose time is irrelevant. -/
def dt0 : Datetime := ⟨0, 0⟩

/-- Eleven distinct one-word commands: more distinct keys than the default
`n = 10` of `get_top_commands` / `get_top_full_commands`. -/
def entries11 : List (String × Datetime) :=
  [("a", dt0), ("b", dt0), ("c", dt0), ("d", dt0), ("e", dt0), ("f", dt0),
   ("g", dt0), ("h", dt0), ("i", dt0), ("j", dt0), ("k", dt0)]

/-- The alias line `alias myalias=(two quotes)x(two quotes)`: its name
contains `alias` as a proper substring and its value wears two quote
layers. -/
def badAliasLine : String := "alias myalias=" ++ sq ++ sq ++ "x" ++ sq ++ sq

/-- The alias line of the spec scenario: `alias gs=(quote)git status(quote)`. -/
def gsAliasLine : String := "alias gs=" ++ sq ++ "git status" ++ sq

/-- The history line of the spec scenario. -/
def histExampleLine : String := ": 1700000000:0;git commit -am \"fix\""

/-- A recognized history line whose command text wears surrounding
whitespace after the `;`. -/
def wsHistLine : String := ": 100:0; ls "

/-! ## Lemmas about the helpers -/

theorem takeWhile_until (sep : Char) (pre post : List Char) (h : sep ∉ pre) :
    (pre ++ sep :: post).takeWhile (fun c => c != sep) = pre := by
  induction pre with
  | nil => simp [List.takeWhile_cons]
  | cons c cs ih =>
    have hc : c ≠ sep := fun hh => h (hh ▸ List.mem_cons_self c cs)
    have hcs : sep ∉ cs := fun hh => h (List.mem_cons_of_mem c hh)
    simp [List.takeWhile_cons, hc, ih hcs]

theorem dropWhile_until (sep : Char) (pre post : List Char) (h : sep ∉ pre) :
    (pre ++ sep :: post).dropWhile (fun c => c != sep) = sep :: post := by
  induction pre with
  | nil => simp [List.dropWhile_cons]
  | cons c cs ih =>
    have hc : c ≠ sep := fun hh => h (hh ▸ List.mem_cons_self c cs)
    have hcs : sep ∉ cs := fun hh => h (List.mem_cons_of_mem c hh)
    simp [List.dropWhile_cons, hc, ih hcs]

/-- Correctness of `splitFirst`: it splits at the *first* occurrence of the
separator. -/
theorem splitFirst_eq {sep : Char} {pre post : List Char} (h : sep ∉ pre) :
    splitFirst sep (pre ++ sep :: post) = some (pre, post) := by
  have hc : (pre ++ sep :: post).contains sep = true := by
    simp [List.contains]
  simp only [splitFirst, hc, if_pos]
  rw [takeWhile_until sep pre post h, dropWhile_until sep pre post h]
  simp

theorem splitFirst_none {sep : Char} {l : List Char} (h : sep ∉ l) :
    splitFirst sep l = none := by
  simp [splitFirst, h]

/-! ## Lemmas about `firstSeen` and `counterItems` -/

theorem dedup_append_singleton {α : Type} [DecidableEq α] (a : α) (xs : List α) :
    (xs ++ [a]).dedup = (xs.dedup).filter (fun x => x != a) ++ [a] := by
  induction xs with
  | nil => simp
  | cons x xs ih =>
    by_cases hxa : x = a
    · subst hxa
      have hx : x ∈ xs ++ [x] := by simp
      rw [List.cons_append, List.dedup_cons_of_mem hx, ih]
      by_cases hmem : x ∈ xs
      · rw [List.dedup_cons_of_mem hmem]
      · rw [List.dedup_cons_of_not_mem hmem]
        simp
    · rw [List.cons_append]
      by_cases hmem : x ∈ xs
      · rw [List.dedup_cons_of_mem (by simp [hmem]), ih,
          List.dedup_cons_of_mem hmem]
      · have hnm : x ∉ xs ++ [a] := by simp [hmem, hxa]
        rw [List.dedup_cons_of_not_mem hnm, ih, List.dedup_cons_of_not_mem hmem]
        simp [hxa]

/-- The characteristic equation of first-seen order: the head of the list is
the first key, and later occurrences of it are discounted. -/
theorem firstSeen_cons {α : Type} [DecidableEq α] (a : α) (l : List α) :
    firstSeen (a :: l) = a :: (firstSeen l).filter (fun x => x != a) := by
  unfold firstSeen
  rw [List.reverse_cons, dedup_append_singleton, List.reverse_append]
  simp [List.filter_reverse]

theorem firstSeen_mem {α : Type} [DecidableEq α] {a : α} {l : List α} :
    a ∈ firstSeen l ↔ a ∈ l := by
  simp [firstSeen, List.mem_dedup]

theorem firstSeen_nodup {α : Type} [DecidableEq α] (l : List α) :
    (firstSeen l).Nodup := by
  simpa [firstSeen] using (List.nodup_dedup l.reverse)

theorem counterItems_keys {α : Type} [DecidableEq α] (l : List α) :
    (counterItems l).map Prod.fst = firstSeen l := by
  simp [counterItems, List.map_map, Function.comp_def]

theorem counterItems_sumCounts {α : Type} [DecidableEq α] (l : List α) :
    sumCounts (counterItems l) = l.length := by
  have h := List.sum_map_count_dedup_eq_length l.reverse
  simp only [List.count_reverse, List.length_reverse] at h
  simp only [sumCounts, counterItems, firstSeen, List.map_map, Function.comp_def,
    List.map_reverse, List.sum_reverse]
  exact h

theorem counterItems_mem {α : Type} [DecidableEq α] {l : List α} {k : α} {c : Nat} :
    (k, c) ∈ counterItems l ↔ (k ∈ l ∧ c = l.count k) := by
  constructor
  · intro h
    rcases List.mem_map.mp h with ⟨a, ha, heq⟩
    rcases Prod.mk.injEq .. ▸ heq with ⟨h1, h2⟩
    exact ⟨h1 ▸ firstSeen_mem.mp ha, h2.symm.trans (by rw [h1])⟩
  · rintro ⟨hmem, rfl⟩
    exact List.mem_map.mpr ⟨k, firstSeen_mem.mpr hmem, rfl⟩

/-! ## Lemmas about the stable sorts -/

theorem insertDesc_perm {α : Type} (k : α → Nat) (x : α) (l : List α) :
    insertDesc k x l ~ x :: l := by
  induction l with
  | nil => exact List.Perm.refl _
  | cons y ys ih =>
    by_cases h : k x ≤ k y
    · simp only [insertDesc, if_pos h]
      exact (ih.cons y).trans (List.Perm.swap x y ys)
    · simp only [insertDesc, if_neg h]
      exact List.Perm.refl _

theorem insertDesc_sorted {α : Type} (k : α → Nat) (x : α) {l : List α}
    (h : l.Pairwise (fun a b => k b ≤ k a)) :
    (insertDesc k x l).Pairwise (fun a b => k b ≤ k a) := by
  induction l with
  | nil => simp [insertDesc]
  | cons y ys ih =>
    rcases List.pairwise_cons.mp h with ⟨hy, hys⟩
    by_cases hxy : k x ≤ k y
    · simp only [insertDesc, if_pos hxy]
      refine List.pairwise_cons.mpr ⟨?_, ih hys⟩
      intro z hz
      rcases List.mem_cons.mp ((insertDesc_perm k x ys).mem_iff.mp hz) with rfl | hz'
      · exact hxy
      · exact hy z hz'
    · simp only [insertDesc, if_neg hxy]
      push_neg at hxy
      refine List.pairwise_cons.mpr ⟨?_, h⟩
      intro z hz
      rcases List.mem_cons.mp hz with rfl | hz'
      · exact Nat.le_of_lt hxy
      · exact Nat.le_trans (hy z hz') (Nat.le_of_lt hxy)

theorem pySortDesc_sorted_from {α : Type} (k : α → Nat) (l : List α) :
    ∀ acc, acc.Pairwise (fun a b => k b ≤ k a) →
      (l.foldl (fun acc x => insertDesc k x acc) acc).Pairwise
        (fun a b => k b ≤ k a) := by
  induction l with
  | nil => intro acc h; exact h
  | cons x l ih => intro acc h; exact ih _ (insertDesc_sorted k x h)

theorem pySortDesc_sorted {α : Type} (k : α → Nat) (l : List α) :
    (pySortDesc k l).Pairwise (fun a b => k b ≤ k a) :=
  pySortDesc_sorted_from k l [] (by simp)

theorem pySortDesc_perm_from {α : Type} (k : α → Nat) (l : List α) :
    ∀ acc, (l.foldl (fun acc x => insertDesc k x acc) acc) ~ acc ++ l := by
  induction l with
  | nil => intro acc; simp
  | cons x l ih =>
    intro acc
    calc (l.foldl (fun acc x => insertDesc k x acc) (insertDesc k x acc))
        ~ insertDesc k x acc ++ l := ih _
      _ ~ (x :: acc) ++ l := (insertDesc_perm k x acc).append_right l
      _ ~ acc ++ x :: l := List.perm_middle.symm

theorem pySortDesc_perm {α : Type} (k : α → Nat) (l : List α) :
    pySortDesc k l ~ l :=
  pySortDesc_perm_from k l []

theorem insertDesc_filter {α : Type} (k : α → Nat) (x : α) (c : Nat) {l : List α}
    (h : l.Pairwise (fun a b => k b ≤ k a)) :
    (insertDesc k x l).filter (fun a => k a == c) =
      if k x = c then l.filter (fun a => k a == c) ++ [x]
      else l.filter (fun a => k a == c) := by
  induction l with
  | nil => by_cases hxc : k x = c <;> simp [insertDesc, hxc]
  | cons y ys ih =>
    rcases List.pairwise_cons.mp h with ⟨hy, hys⟩
    by_cases hxy : k x ≤ k y
    · simp only [insertDesc, if_pos hxy, List.filter_cons]
      rw [ih hys]
      by_cases hyc : k y == c <;> by_cases hxc : k x = c <;>
        simp [hyc, hxc]
    · simp only [insertDesc, if_neg hxy]
      push_neg at hxy
      by_cases hxc : k x = c
      · have hall : ∀ z ∈ y :: ys, k z < c := by
          intro z hz
          rcases List.mem_cons.mp hz with rfl | hz'
          · exact hxc ▸ hxy
          · exact Nat.lt_of_le_of_lt (hy z hz') (hxc ▸ hxy)
        have hfil : (y :: ys).filter (fun a => k a == c) = [] := by
          rw [List.filter_eq_nil_iff]
          intro z hz
          simp [Nat.ne_of_lt (hall z hz)]
        simp [List.filter_cons, hxc, hfil]
      · rw [List.filter_cons, if_neg (by simp [hxc]), if_neg hxc]

theorem pySortDesc_filter_from {α : Type} (k : α → Nat) (c : Nat) (l : List α) :
    ∀ acc, acc.Pairwise (fun a b => k b ≤ k a) →
      (l.foldl (fun acc x => insertDesc k x acc) acc).filter (fun a => k a == c) =
        acc.filter (fun a => k a == c) ++ l.filter (fun a => k a == c) := by
  induction l with
  | nil => intro acc _; simp
  | cons x l ih =>
    intro acc hacc
    rw [List.foldl_cons, ih _ (insertDesc_sorted k x hacc),
      insertDesc_filter k x c hacc, List.filter_cons]
    by_cases hxc : k x = c
    · rw [if_pos hxc, if_pos (by simp [hxc]), List.append_assoc]
      simp
    · rw [if_neg hxc, if_neg (by simp [hxc])]

/-- Stability of the modelled Python sort: the elements whose key equals any
fixed value `c` appear in the sorted output exactly in their input order. -/
theorem pySortDesc_filter {α : Type} (k : α → Nat) (c : Nat) (l : List α) :
    (pySortDesc k l).filter (fun a => k a == c) = l.filter (fun a => k a == c) := by
  simpa using pySortDesc_filter_from k c l [] (by simp)

theorem insertAsc_perm {α : Type} (k : α → Nat) (x : α) (l : List α) :
    insertAsc k x l ~ x :: l := by
  induction l with
  | nil => exact List.Perm.refl _
  | cons y ys ih =>
    by_cases h : k y ≤ k x
    · simp only [insertAsc, if_pos h]
      exact (ih.cons y).trans (List.Perm.swap x y ys)
    · simp only [insertAsc, if_neg h]
      exact List.Perm.refl _

theorem insertAsc_sorted {α : Type} (k : α → Nat) (x : α) {l : List α}
    (h : l.Pairwise (fun a b => k a ≤ k b)) :
    (insertAsc k x l).Pairwise (fun a b => k a ≤ k b) := by
  induction l with
  | nil => simp [insertAsc]
  | cons y ys ih =>
    rcases List.pairwise_cons.mp h with ⟨hy, hys⟩
    by_cases hxy : k y ≤ k x
    · simp only [insertAsc, if_pos hxy]
      refine List.pairwise_cons.mpr ⟨?_, ih hys⟩
      intro z hz
      rcases List.mem_cons.mp ((insertAsc_perm k x ys).mem_iff.mp hz) with rfl | hz'
      · exact hxy
      · exact hy z hz'
    · simp only [insertAsc, if_neg hxy]
      push_neg at hxy
      refine List.pairwise_cons.mpr ⟨?_, h⟩
      intro z hz
      rcases List.mem_cons.mp hz with rfl | hz'
      · exact Nat.le_of_lt hxy
      · exact Nat.le_trans (Nat.le_of_lt hxy) (hy z hz')

theorem pySortAsc_sorted_from {α : Type} (k : α → Nat) (l : List α) :
    ∀ acc, acc.Pairwise (fun a b => k a ≤ k b) →
      (l.foldl (fun acc x => insertAsc k x acc) acc).Pairwise
        (fun a b => k a ≤ k b) := by
  induction l with
  | nil => intro acc h; exact h
  | cons x l ih => intro acc h; exact ih _ (insertAsc_sorted k x h)

theorem pySortAsc_sorted {α : Type} (k : α → Nat) (l : List α) :
    (pySortAsc k l).Pairwise (fun a b => k a ≤ k b) :=
  pySortAsc_sorted_from k l [] (by simp)

theorem pySortAsc_perm_from {α : Type} (k : α → Nat) (l : List α) :
    ∀ acc, (l.foldl (fun acc x => insertAsc k x acc) acc) ~ acc ++ l := by
  induction l with
  | nil => intro acc; simp
  | cons x l ih =>
    intro acc
    calc (l.foldl (fun acc x => insertAsc k x acc) (insertAsc k x acc))
        ~ insertAsc k x acc ++ l := ih _
      _ ~ (x :: acc) ++ l := (insertAsc_perm k x acc).append_right l
      _ ~ acc ++ x :: l := List.perm_middle.symm

theorem pySortAsc_perm {α : Type} (k : α → Nat) (l : List α) :
    pySortAsc k l ~ l :=
  pySortAsc_perm_from k l []

/-! ## The claims -/

/-- C1: on the empty entry sequence the report code does *not* degrade to a
zero result: both the hourly-distribution maximum of `print_time_analysis`
(main.py line 284) and the bar-scaling maximum of `print_full_commands`
(main.py line 232) evaluate `max()` over an empty collection and raise
`ValueError`, for every alias table. -/
theorem c1_empty_entries_max_raises :
    print_time_analysis_max [] = Except.error emptyMaxMsg
    ∧ ∀ aliases : List (String × String),
        print_full_commands_max aliases [] = Except.error emptyMaxMsg :=
  ⟨rfl, fun _ => rfl⟩

/-- C2 counterexample: for a single entry at hour 3, `get_hourly_distribution`
returns the one-entry table `[(3, 1)]`: hour 0 is absent and the table does
not have all 24 hours, refuting the claim that every hour 0–23 is present
with an explicit zero count. -/
theorem c2_hour_table_incomplete :
    get_hourly_distribution [("ls", Datetime.mk 10800 3)] = [(3, 1)]
    ∧ (get_hourly_distribution [("ls", Datetime.mk 10800 3)]).lookup 0 = none
    ∧ (get_hourly_distribution [("ls", Datetime.mk 10800 3)]).length ≠ 24 :=
  ⟨by decide, by decide, by decide⟩

/-- C2 (amended): `get_hourly_distribution` buckets entries by the hour of
their timestamp and returns exactly the *occurring* hours, in ascending
hour order, each with its exact entry count; hours with no entries are
absent (consumers default them to zero when displaying). -/
theorem c2_hourly_distribution_occurring_hours :
    ∀ entries : List (String × Datetime),
      (get_hourly_distribution entries).Pairwise (fun a b => a.1 ≤ b.1)
      ∧ ∀ h k : Nat, (h, k) ∈ get_hourly_distribution entries ↔
          ((entries.map (fun e => e.2.hour)).count h = k ∧ k ≠ 0) := by
  intro entries
  refine ⟨pySortAsc_sorted Prod.fst _, ?_⟩
  intro h k
  have hp := pySortAsc_perm Prod.fst (counterItems (entries.map (fun e => e.2.hour)))
  rw [get_hourly_distribution, hp.mem_iff, counterItems_mem]
  constructor
  · rintro ⟨hm, rfl⟩
    exact ⟨rfl, Nat.pos_iff_ne_zero.mp (List.count_pos_iff.mpr hm)⟩
  · rintro ⟨rfl, hne⟩
    exact ⟨List.count_pos_iff.mp (Nat.pos_of_ne_zero hne), rfl⟩

/-- C3 counterexample: the distinguished scoring set of
`calculate_command_complexity` has 20 distinct characters, not 18 as the
claim states. -/
theorem c3_score_set_has_twenty_characters :
    specialScoreSet.Nodup ∧ specialScoreSet.length = 20
    ∧ specialScoreSet.length ≠ 18 :=
  ⟨by decide, by decide, by decide⟩

/-- C3 (amended): the complexity score counts the character occurrences
belonging to the fixed *20*-character distinguished set (so repeated
punctuation raises the score by one per occurrence), and the score is
invariant under any reordering of the command's characters. -/
theorem c3_complexity_counts_score_set :
    ∀ (c d : String), c.toList ~ d.toList →
      calculate_command_complexity c =
        c.toList.countP (fun ch => specialScoreSet.contains ch)
      ∧ calculate_command_complexity c = calculate_command_complexity d
      ∧ ∀ e : String,
          calculate_command_complexity (e ++ "|") =
            calculate_command_complexity e + 1 := by
  intro c d hperm
  refine ⟨rfl, hperm.countP_eq _, ?_⟩
  intro e
  show ((e ++ "|").data.countP _) = _
  rw [String.data_append, List.countP_append]
  rfl

/-- C3 witness at a concrete reordering. -/
theorem c3_complexity_counts_score_set_witness :
    calculate_command_complexity ("a|b") =
        ("a|b").toList.countP (fun ch => specialScoreSet.contains ch)
      ∧ calculate_command_complexity ("a|b") = calculate_command_complexity ("b|a")
      ∧ calculate_command_complexity ("cat x | grep y" ++ "|") =
          calculate_command_complexity ("cat x | grep y") + 1 := by
  have h := c3_complexity_counts_score_set "a|b" "b|a" (by decide)
  exact ⟨h.1, h.2.1, h.2.2 "cat x | grep y"⟩

/-- C4: `get_special_chars` returns the deduplicated set of the command's
non-alphanumeric, non-whitespace characters, sorted ascending by code
point, and its length never exceeds the command's length. -/
theorem c4_special_chars_distinct_sorted :
    ∀ c : String,
      (get_special_chars c).toList.Nodup
      ∧ (get_special_chars c).toList.Pairwise (fun a b => a.toNat ≤ b.toNat)
      ∧ (∀ ch : Char, ch ∈ (get_special_chars c).toList ↔
          (ch ∈ c.toList ∧ ch.isAlphanum = false ∧ ch.isWhitespace = false))
      ∧ (get_special_chars c).length ≤ c.length := by
  intro c
  have hperm := pySortAsc_perm Char.toNat
    ((c.toList.filter (fun ch => !ch.isAlphanum && !ch.isWhitespace)).dedup)
  have htl : (get_special_chars c).toList =
      pySortAsc Char.toNat
        ((c.toList.filter (fun ch => !ch.isAlphanum && !ch.isWhitespace)).dedup) := rfl
  refine ⟨?_, ?_, ?_, ?_⟩
  · rw [htl]
    exact hperm.nodup_iff.mpr (List.nodup_dedup _)
  · rw [htl]
    exact pySortAsc_sorted Char.toNat _
  · intro ch
    rw [htl, hperm.mem_iff, List.mem_dedup, List.mem_filter]
    simp [Bool.and_eq_true, Bool.not_eq_true']
  · have h1 : (get_special_chars c).length =
        (pySortAsc Char.toNat
          ((c.toList.filter (fun ch => !ch.isAlphanum && !ch.isWhitespace)).dedup)).length := rfl
    rw [h1, hperm.length_eq]
    calc ((c.toList.filter (fun ch => !ch.isAlphanum && !ch.isWhitespace)).dedup).length
        ≤ (c.toList.filter (fun ch => !ch.isAlphanum && !ch.isWhitespace)).length :=
          (List.dedup_sublist _).length_le
      _ ≤ c.toList.length := List.length_filter_le _ _
      _ = c.length := rfl

/-- C5 counterexample: on the line `alias myalias=(2 quotes)x(2 quotes)`
the code's `replace("alias", "")` deletes the *inner* `alias` substring as
well (name `my`, not `myalias`), and `strip("'\"")` removes *both* quote
layers (value `x`, not one-layer-stripped `'x'`), diverging from the
claim's description, modelled by `parse_alias_line_perSpec`. -/
theorem c5_alias_name_and_quotes_diverge :
    parse_alias_line badAliasLine = some ("my", "x")
    ∧ parse_alias_line_perSpec badAliasLine = some ("myalias", sq ++ "x" ++ sq)
    ∧ parse_alias_line badAliasLine ≠ parse_alias_line_perSpec badAliasLine :=
  ⟨by decide, by decide, by decide⟩

/-- C5 (amended): an alias-definition line is split on the *first* `=`
only; the name is the text before it with *every* occurrence of the
substring `alias` removed and whitespace stripped; the value is the text
after it with whitespace stripped and then *all* leading and trailing
quote characters removed.  The line `alias gs='git status'` still yields
the entry `gs → git status`. -/
theorem c5_alias_line_split_and_strip :
    (∀ (line : String) (pre post : List Char),
      aliasPat.isPrefixOf (stripWsList line.toList) = true →
      stripWsList line.toList = pre ++ '=' :: post →
      '=' ∉ pre →
      parse_alias_line line =
        some (String.mk (stripWsList (removeSub aliasPat pre)),
              String.mk (stripCharsList quoteChars (stripWsList post))))
    ∧ parse_alias_line gsAliasLine = some ("gs", "git status")
    ∧ parse_aliases [gsAliasLine] = [("gs", "git status")] := by
  refine ⟨?_, by decide, by decide⟩
  intro line pre post h1 h2 h3
  unfold parse_alias_line
  have hsf : splitFirst '=' (stripWsList line.toList) = some (pre, post) := by
    rw [h2]; exact splitFirst_eq h3
  rw [h2] at h1 hsf
  simp only [h1, if_true, hsf, h2]

/-- C5 witness: the general alias-line theorem applied to the scenario
line. -/
theorem c5_alias_line_split_and_strip_witness :
    parse_alias_line gsAliasLine =
      some (String.mk (stripWsList (removeSub aliasPat ("alias gs").toList)),
            String.mk (stripCharsList quoteChars
              (stripWsList (sq ++ "git status" ++ sq).toList))) :=
  c5_alias_line_split_and_strip.1 gsAliasLine ("alias gs").toList
    ((sq ++ "git status" ++ sq).toList) (by decide) (by decide) (by decide)

/-- C6: a history line that does not start with `": "`, or has no `;`, or
whose timestamp field is not an integer, parses to nothing; and a line that
parses to nothing is silently skipped — the parse of the remaining lines is
unchanged. -/
theorem c6_malformed_lines_skipped :
    ∀ (tz : Int) (line : String) (pre post : List String),
      (((": ".toList).isPrefixOf line.toList = false
          ∨ ';' ∉ line.toList
          ∨ pyParseInt (String.mk (stripWsList
              ((line.toList.drop 1).takeWhile (fun c => c != ':')))) = none) →
        parse_history_line tz line = none)
      ∧ (parse_history_line tz line = none →
          parse_zsh_history tz (pre ++ line :: post) =
            parse_zsh_history tz (pre ++ post)) := by
  intro tz line pre post
  constructor
  · intro h
    unfold parse_history_line
    by_cases hp : (": ".toList).isPrefixOf line.toList = true
    · simp only [hp, if_true]
      rcases h with h | h | h
      · rw [hp] at h; exact absurd h (by simp)
      · rw [splitFirst_none h]
      · rcases hsf : splitFirst ';' line.toList with _ | ⟨p, rest⟩
        · rfl
        · rw [h]
    · simp only [Bool.not_eq_true] at hp
      simp only [hp, Bool.false_eq_true, if_false]
  · intro h
    simp [parse_zsh_history, List.filterMap_append, List.filterMap_cons, h]

/-- C6 witness: the malformed line `garbage` is skipped between two good
lines. -/
theorem c6_malformed_lines_skipped_witness :
    parse_history_line 0 "garbage" = none
    ∧ parse_zsh_history 0 [": 10:0;a", "garbage", ": 20:0;b"] =
        parse_zsh_history 0 [": 10:0;a", ": 20:0;b"] := by
  have h := c6_malformed_lines_skipped 0 "garbage" [": 10:0;a"] [": 20:0;b"]
  have hn := h.1 (Or.inl (by decide))
  exact ⟨hn, h.2 hn⟩

/-- C7 counterexample: two recognized-shape lines refute the original
claim.  On `: 100:0;(space)ls(space)` the parser strips the surrounding
whitespace from the command (`"ls"`), while the claim's "everything after
the first `;`" (modelled by `parse_history_line_perSpec`) keeps it
(`" ls "`); and the recognized line `: 260000000000:0;ls` produces *no*
entry at all — its epoch lies beyond year 9999, so
`datetime.fromtimestamp` raises `ValueError` and the line is silently
skipped. -/
theorem c7_command_text_is_stripped :
    parse_history_line 0 wsHistLine = some ("ls", Datetime.mk 100 0)
    ∧ parse_history_line_perSpec 0 wsHistLine =
        some (" ls ", Datetime.mk 100 0)
    ∧ parse_history_line 0 wsHistLine ≠ parse_history_line_perSpec 0 wsHistLine
    ∧ parse_history_line 0 ": 260000000000:0;ls" = none :=
  ⟨by decide, by decide, by decide, by decide⟩

/-- C7 (amended): on a recognized line whose integer epoch field denotes a
local datetime within Python's supported years 1–9999 (that is,
`pyFromTimestamp` succeeds), the parser takes that integer as the entry's
epoch timestamp, and as command text everything after the *first* `;` with
surrounding whitespace stripped (a later `;` is not structural); entries
come in file order (`parse_zsh_history` is a filterMap).  A recognized
line whose epoch is out of that range is silently skipped (`ValueError`
from `fromtimestamp`, caught by the parser's handler).  The scenario line
`: 1700000000:0;git commit -am "fix"` yields that command with epoch
1700000000. -/
theorem c7_recognized_line_fields :
    (∀ (tz : Int) (line : String) (pre rest : List Char) (n : Int) (d : Datetime),
      (": ".toList).isPrefixOf line.toList = true →
      line.toList = pre ++ ';' :: rest →
      ';' ∉ pre →
      pyParseInt (String.mk (stripWsList
        ((line.toList.drop 1).takeWhile (fun c => c != ':')))) = some n →
      pyFromTimestamp tz n = some d →
      parse_history_line tz line = some (String.mk (stripWsList rest), d)
      ∧ d.epoch = n)
    ∧ (∀ (tz n : Int), pyFromTimestamp tz n = none →
        ∀ (line : String) (pre rest : List Char),
          (": ".toList).isPrefixOf line.toList = true →
          line.toList = pre ++ ';' :: rest →
          ';' ∉ pre →
          pyParseInt (String.mk (stripWsList
            ((line.toList.drop 1).takeWhile (fun c => c != ':')))) = some n →
          parse_history_line tz line = none)
    ∧ parse_history_line 0 histExampleLine =
        some ("git commit -am \"fix\"", Datetime.mk 1700000000 22) := by
  refine ⟨?_, ?_, by decide⟩
  · intro tz line pre rest n d h1 h2 h3 h4 h5
    have hsf : splitFirst ';' line.toList = some (pre, rest) := by
      rw [h2]; exact splitFirst_eq h3
    constructor
    · unfold parse_history_line
      simp only [h1, if_true, hsf, h4, h5]
    · simp only [pyFromTimestamp] at h5
      split at h5
      · cases h5; rfl
      · exact Option.noConfusion h5
  · intro tz n hnone line pre rest h1 h2 h3 h4
    have hsf : splitFirst ';' line.toList = some (pre, rest) := by
      rw [h2]; exact splitFirst_eq h3
    unfold parse_history_line
    simp only [h1, if_true, hsf, h4, hnone]

/-- C7 witness: the general recognized-line theorem applied to the
whitespace-wearing line, and the skip branch applied to the out-of-range
epoch line. -/
theorem c7_recognized_line_fields_witness :
    (parse_history_line 0 wsHistLine =
        some (String.mk (stripWsList (" ls ").toList), Datetime.mk 100 0)
      ∧ (Datetime.mk 100 0).epoch = 100)
    ∧ parse_history_line 0 ": 260000000000:0;ls" = none :=
  ⟨c7_recognized_line_fields.1 0 wsHistLine (": 100:0").toList (" ls ").toList
      100 (Datetime.mk 100 0) (by decide) (by decide) (by decide) (by decide)
      (by decide),
    c7_recognized_line_fields.2.1 0 260000000000 (by decide)
      ": 260000000000:0;ls" (": 260000000000:0").toList ("ls").toList
      (by decide) (by decide) (by decide) (by decide)⟩

/-- C8: each top-N table is sorted descending by count (resp. score), and
entries of equal count appear exactly in the order of the underlying
table — the counter table in first-seen key order for the two frequency
tables, the entry-order `commandInfo` list for the complexity table;
`firstSeen` is characterised by its head-and-filter recurrence and is the
key order of `counterItems`. -/
theorem c8_tables_sorted_and_stable :
    ∀ (cmds : List (String × Datetime)) (n : Nat),
      ((get_top_commands cmds n).Pairwise (fun a b => b.2 ≤ a.2)
        ∧ ∀ c : Nat, (get_top_commands cmds n).filter (fun p => p.2 == c) <+:
            (counterItems (cmds.map (fun e => baseCmd e.1))).filter
              (fun p => p.2 == c))
      ∧ ((get_top_full_commands cmds n).Pairwise (fun a b => b.2 ≤ a.2)
        ∧ ∀ c : Nat, (get_top_full_commands cmds n).filter (fun p => p.2 == c) <+:
            (counterItems (cmds.map Prod.fst)).filter (fun p => p.2 == c))
      ∧ ((get_most_complex_commands cmds n).Pairwise (fun a b => b.2.1 ≤ a.2.1)
        ∧ ∀ s : Nat, (get_most_complex_commands cmds n).filter
              (fun t => t.2.1 == s) <+:
            (commandInfo cmds).filter (fun t => t.2.1 == s))
      ∧ (∀ (a : String) (l : List String),
          firstSeen (a :: l) = a :: (firstSeen l).filter (fun x => x != a))
      ∧ (∀ l : List String, (counterItems l).map Prod.fst = firstSeen l) := by
  intro cmds n
  refine ⟨⟨?_, ?_⟩, ⟨?_, ?_⟩, ⟨?_, ?_⟩, firstSeen_cons, counterItems_keys⟩
  · exact List.Pairwise.sublist (List.take_prefix n _).sublist
      (pySortDesc_sorted Prod.snd _)
  · intro c
    have h1 := List.IsPrefix.filter (fun p => p.2 == c)
      (List.take_prefix n (pySortDesc Prod.snd
        (counterItems (cmds.map (fun e => baseCmd e.1)))))
    rw [pySortDesc_filter] at h1
    exact h1
  · exact List.Pairwise.sublist (List.take_prefix n _).sublist
      (pySortDesc_sorted Prod.snd _)
  · intro c
    have h1 := List.IsPrefix.filter (fun p => p.2 == c)
      (List.take_prefix n (pySortDesc Prod.snd
        (counterItems (cmds.map Prod.fst))))
    rw [pySortDesc_filter] at h1
    exact h1
  · exact List.Pairwise.sublist (List.take_prefix n _).sublist
      (pySortDesc_sorted (fun t : String × Nat × String => t.2.1) _)
  · intro s
    have h1 := List.IsPrefix.filter (fun t : String × Nat × String => t.2.1 == s)
      (List.take_prefix n (pySortDesc (fun t : String × Nat × String => t.2.1)
        (commandInfo cmds)))
    rw [pySortDesc_filter] at h1
    exact h1

/-- C9 counterexample: with the functions' default `n = 10` and eleven
distinct commands, the truncated frequency tables sum to 10 while 11
entries were parsed. -/
theorem c9_truncated_counts_sum_short :
    sumCounts (get_top_commands entries11 10) = 10
    ∧ sumCounts (get_top_full_commands entries11 10) = 10
    ∧ entries11.length = 11 ∧ (10 : Nat) ≠ 11 :=
  ⟨by decide, by decide, by decide, by decide⟩

/-- C9 (amended): whenever `n` is at least the number of distinct keys
(so the top-`n` table is untruncated), the counts of `get_top_commands`
and of `get_top_full_commands` sum to the total number of parsed
entries. -/
theorem c9_untruncated_counts_sum_to_total :
    ∀ (entries : List (String × Datetime)) (n : Nat),
      ((counterItems (entries.map (fun e => baseCmd e.1))).length ≤ n →
        sumCounts (get_top_commands entries n) = entries.length)
      ∧ ((counterItems (entries.map Prod.fst)).length ≤ n →
        sumCounts (get_top_full_commands entries n) = entries.length) := by
  intro entries n
  have main : ∀ l : List String, (counterItems l).length ≤ n →
      sumCounts ((pySortDesc Prod.snd (counterItems l)).take n) = l.length := by
    intro l h
    have hperm := pySortDesc_perm Prod.snd (counterItems l)
    have hlen : (pySortDesc Prod.snd (counterItems l)).length ≤ n := by
      rw [List.Perm.length_eq hperm]; exact h
    rw [List.take_of_length_le hlen]
    show ((pySortDesc Prod.snd (counterItems l)).map Prod.snd).sum = l.length
    rw [List.Perm.sum_eq (hperm.map Prod.snd)]
    exact counterItems_sumCounts l
  refine ⟨fun h => ?_, fun h => ?_⟩
  · have := main (entries.map (fun e => baseCmd e.1)) h
    rw [List.length_map] at this
    exact this
  · have := main (entries.map Prod.fst) h
    rw [List.length_map] at this
    exact this

/-- C9 witness: two entries, two distinct keys, `n = 10`. -/
theorem c9_untruncated_counts_sum_to_total_witness :
    sumCounts (get_top_commands [("ls -la", dt0), ("ls", dt0)] 10) = 2
    ∧ sumCounts (get_top_full_commands [("ls -la", dt0), ("ls", dt0)] 10) = 2 := by
  have h := c9_untruncated_counts_sum_to_total [("ls -la", dt0), ("ls", dt0)] 10
  exact ⟨h.1 (by decide), h.2 (by decide)⟩

theorem analyze_alias_usage_go_total (aliases : List (String × String)) :
    ∀ (cmds : List (String × Datetime)) (acc : List (String × Nat)),
      (∀ p ∈ cmds, pySplitWs p.1.toList ≠ []) →
      ∃ u, analyze_alias_usage_go aliases cmds acc = Except.ok u := by
  intro cmds
  induction cmds with
  | nil => intro acc _; exact ⟨acc, rfl⟩
  | cons e rest ih =>
    intro acc h
    have he : pySplitWs e.1.toList ≠ [] := h e (List.mem_cons_self e rest)
    rcases hx : pySplitWs e.1.toList with _ | ⟨t, ts⟩
    · exact absurd hx he
    · simp only [analyze_alias_usage_go, hx]
      exact ih _ (fun p hp => h p (List.mem_cons_of_mem e hp))

theorem print_base_commands_go_total (aliases : List (String × String)) :
    ∀ (cmds : List (String × Datetime)) (acc : List (String × Nat)),
      (∀ p ∈ cmds, pySplitWs p.1.toList ≠ []) →
      ∃ u, print_base_commands_go aliases cmds acc = Except.ok u := by
  intro cmds
  induction cmds with
  | nil => intro acc _; exact ⟨acc, rfl⟩
  | cons e rest ih =>
    intro acc h
    have he : pySplitWs e.1.toList ≠ [] := h e (List.mem_cons_self e rest)
    rcases hx : pySplitWs e.1.toList with _ | ⟨t, ts⟩
    · exact absurd hx he
    · simp only [print_base_commands_go, hx]
      exact ih _ (fun p hp => h p (List.mem_cons_of_mem e hp))

/-- C10 counterexample: the history parser produces an entry with the empty
command from the line `": 1700000000:0;"`, and on such an entry both
`analyze_alias_usage` and the alias-excluding base-command counting of
`print_base_commands` raise `IndexError` from the unguarded
`cmd.split()[0]`. -/
theorem c10_empty_command_raises :
    parse_zsh_history 0 [": 1700000000:0;"] = [("", Datetime.mk 1700000000 22)]
    ∧ analyze_alias_usage [("gs", "git status")]
        [("", Datetime.mk 1700000000 22)] = Except.error indexErrMsg
    ∧ print_base_commands_counts [("gs", "git status")]
        [("", Datetime.mk 1700000000 22)] = Except.error indexErrMsg :=
  ⟨by decide, rfl, rfl⟩

/-- C10 (amended): whenever every entry's command has at least one
whitespace-delimited token, `analyze_alias_usage` and the alias-excluding
base-command counting complete without raising, for every alias map. -/
theorem c10_alias_counting_total_on_tokenized :
    ∀ (aliases : List (String × String)) (cmds : List (String × Datetime)),
      (∀ p ∈ cmds, pySplitWs p.1.toList ≠ []) →
      (∃ u, analyze_alias_usage aliases cmds = Except.ok u)
      ∧ (∃ b, print_base_commands_counts aliases cmds = Except.ok b) :=
  fun aliases cmds h =>
    ⟨analyze_alias_usage_go_total aliases cmds [] h,
     print_base_commands_go_total aliases cmds [] h⟩

/-- C10 witness at a two-entry history with one alias. -/
theorem c10_alias_counting_total_on_tokenized_witness :
    (∃ u, analyze_alias_usage [("gs", "git status")]
        [("gs", dt0), ("ls -la", dt0)] = Except.ok u)
    ∧ (∃ b, print_base_commands_counts [("gs", "git status")]
        [("gs", dt0), ("ls -la", dt0)] = Except.ok b) :=
  c10_alias_counting_total_on_tokenized [("gs", "git status")]
    [("gs", dt0), ("ls -la", dt0)] (by decide)

end TerminalWrapped
